import Mathlib

/-!
Verification of the kanban task-board prototypes (taskmaster, taskdragmaster,
and the unnamed part_000 variant) against their natural-language specification.

The board state and the four entry-point operations (create, update, delete,
drag-reorder) are shallowly embedded below.  JavaScript objects are modelled as
association lists with string keys (`AList`); JavaScript `undefined` is `none`;
property access with an `undefined` key coerces to the string key "undefined",
as JavaScript does; `Array.prototype.splice` / `indexOf` are modelled with
JavaScript's negative-index and clamping semantics; `x || d` on strings treats
the empty string as falsy.

Naming convention: `tm_` = src/prototypes/taskmaster/src/App.jsx,
`d_` = src/prototypes/taskdragmaster/src/App.jsx,
`u_` = src/unnamed/part_000.
-/

namespace TaskBoard

/-- Association list with string keys, modelling a JavaScript object.
Key insertion order is significant, as in JavaScript. -/
abbrev AList (α : Type) := List (String × α)

/-- First value stored under key `key`, or `none` (JS: `m[key]` yielding
`undefined` when absent). -/
def alookup {α : Type} : AList α → String → Option α
  | [], _ => none
  | p :: m, key => if p.1 = key then some p.2 else alookup m key

/-- Key-presence test. The stored values in this development are objects and
arrays, which are always truthy in JavaScript, so `!!m[k]` and `k in m`
coincide with key presence. -/
def hasKey {α : Type} (m : AList α) (k : String) : Bool :=
  (alookup m k).isSome

/-- `m[k] || d` for object/array values (JS: absent key falls back to `d`). -/
def agetD {α : Type} (m : AList α) (k : String) (d : α) : α :=
  (alookup m k).getD d

/-- `{ ...m, [k]: v }`: overwrite in place when the key exists, else append
at the end, exactly as JavaScript object spread with a computed key. -/
def aset {α : Type} (m : AList α) (k : String) (v : α) : AList α :=
  if hasKey m k then m.map (fun p => if p.1 = k then (k, v) else p)
  else m ++ [(k, v)]

/-- `delete m[k]`. -/
def aerase {α : Type} (m : AList α) (k : String) : AList α :=
  m.filter (fun p => p.1 ≠ k)

/-- Property access `m[x]` with `x` possibly `undefined`: JavaScript coerces
the key `undefined` to the string "undefined". -/
def keyOf : Option String → String
  | some s => s
  | none => "undefined"

/-- JavaScript `v || d` where `v` is a string or `undefined`: the empty string
is falsy. -/
def jsOrS : Option String → String → String
  | none, d => d
  | some s, d => if s = "" then d else s

/-- `Array.prototype.indexOf`: first index of `x`, or `-1`. -/
def jsIndexOf (l : List String) (x : String) : Int :=
  match l with
  | [] => -1
  | a :: tl =>
      if a = x then 0
      else
        let r := jsIndexOf tl x
        if r = -1 then -1 else r + 1

/-- Actual start index of `Array.prototype.splice`: negative indices count
from the end, and the index is clamped to the array length. -/
def jsStart (len : Nat) (i : Int) : Nat :=
  if i < 0 then ((len : Int) + i).toNat else min i.toNat len

/-- `l.splice(i, 1)`: remove one element at (clamped) index `i`. -/
def spliceRemove1 (l : List String) (i : Int) : List String :=
  let s := jsStart l.length i
  l.take s ++ l.drop (s + 1)

/-- `l.splice(i, 0, x)`: insert `x` at (clamped) index `i`. -/
def spliceInsert (l : List String) (i : Int) (x : String) : List String :=
  let s := jsStart l.length i
  l.take s ++ x :: l.drop s

/-- A task object.  Every field is optional because JavaScript objects are
schemaless: a field that was never written is `undefined` (`none`).
The taskmaster/taskdragmaster prototypes use `columnId`, the part_000 variant
uses `status`; the remaining fields are shared. -/
structure TaskObj where
  id : Option String := none
  title : Option String := none
  description : Option String := none
  priority : Option String := none
  due : Option String := none
  tag : Option String := none
  columnId : Option String := none
  status : Option String := none
  createdAt : Option String := none
  updatedAt : Option String := none
deriving DecidableEq, Repr

/-- A column record `{id, name}`. -/
structure Column where
  id : String
  name : String
deriving DecidableEq, Repr

/-- The board: columns, tasks keyed by id, per-column order lists keyed by
column id, and a last-modified timestamp. -/
structure Board where
  id : String
  name : String
  columns : List Column
  tasks : AList TaskObj
  order : AList (List String)
  ts : String
deriving DecidableEq, Repr

/-- `DEFAULT_COLUMNS` of the taskmaster prototype. -/
def DEFAULT_COLUMNS : List Column :=
  [⟨"todo", "To do"⟩, ⟨"inprogress", "In progress"⟩, ⟨"done", "Done"⟩]

/-- taskmaster `emptyBoard()`: fresh board with the default columns and empty
tasks/order. The clock is an external collaborator, passed as `now`. -/
def emptyBoard (now : String) : Board :=
  { id := "default", name := "My Board", columns := DEFAULT_COLUMNS,
    tasks := [],
    order := [("todo", []), ("inprogress", []), ("done", [])],
    ts := now }

/-- taskmaster `loadStore()`: `none` models both an absent storage key and a
`JSON.parse` failure (the surrounding try/catch returns null). `parse` stands
for `JSON.parse` composed with the stored payload shape; it returns `none`
exactly when the payload cannot be parsed. -/
def loadStore (raw : Option String) (parse : String → Option Board) :
    Option Board :=
  match raw with
  | none => none
  | some s => parse s

/-- taskmaster `App` startup: `loadStore() || emptyBoard()` (a parsed board
object is truthy). -/
def startupBoard (raw : Option String) (parse : String → Option Board)
    (now : String) : Board :=
  match loadStore raw parse with
  | some b => b
  | none => emptyBoard now

/-- Fields the modal of the taskmaster prototype always supplies to
`saveTask`: `id` may be `undefined` (a new task), the rest are strings. -/
structure TaskInputM where
  id : Option String
  title : String
  description : String
  priority : String
  due : String
  columnId : String
deriving DecidableEq, Repr

/-- taskmaster `saveTask(taskPartial)` (App.jsx lines 242-260).  `freshId`
stands for `uuidv4()`, `now` for `nowIso()`. -/
def tm_saveTask (b : Board) (p : TaskInputM) (freshId now : String) : Board :=
  let isEdit : Bool :=
    match p.id with
    | none => false
    | some s => if s = "" then false else hasKey b.tasks s
  let id : String :=
    match p.id with
    | none => freshId
    | some s => if s = "" then freshId else s
  let base : TaskObj := (alookup b.tasks id).getD {}
  let task : TaskObj :=
    { base with
      id := some id, title := some p.title, description := some p.description,
      priority := some p.priority, due := some p.due,
      columnId := some p.columnId,
      updatedAt := some now,
      createdAt := some (jsOrS base.createdAt now) }
  let tasks' := aset b.tasks id task
  let order' :=
    if isEdit then b.order
    else aset b.order "todo" (id :: agetD b.order "todo" [])
  { b with tasks := tasks', order := order', ts := now }

/-- taskmaster `deleteTask(id)` (App.jsx lines 262-270): no-op when the id is
absent or the confirm dialog is declined; otherwise removes the task and
filters the id out of the order list of the task's recorded column only. -/
def tm_deleteTask (b : Board) (id : String) (confirmDelete : Bool)
    (now : String) : Board :=
  match alookup b.tasks id with
  | none => b
  | some t =>
      if confirmDelete then
        let colId := keyOf t.columnId
        let nextOrder := (agetD b.order colId []).filter (fun x => x ≠ id)
        { b with tasks := aerase b.tasks id,
                 order := aset b.order colId nextOrder, ts := now }
      else b

/-- taskmaster `handleDragEnd(ev)` (App.jsx lines 272-306), for the
`over ≠ null` case; `activeId = active.id`, `overId = over.id`. -/
def tm_handleDragEnd (b : Board) (activeId overId : String)
    (now : String) : Board :=
  let fromColId : Option String := (alookup b.tasks activeId).bind (·.columnId)
  let toColId : Option String :=
    if hasKey b.order overId then some overId
    else if hasKey b.tasks overId then (alookup b.tasks overId).bind (·.columnId)
    else fromColId
  let fromOrder :=
    (agetD b.order (keyOf fromColId) []).filter (fun x => x ≠ activeId)
  let toOrder := agetD b.order (keyOf toColId) []
  let toOrder' :=
    match alookup b.tasks overId with
    | some tt =>
        if tt.id ≠ some activeId then
          let idx := jsIndexOf toOrder overId
          if idx = -1 then toOrder ++ [activeId]
          else spliceInsert toOrder idx activeId
        else toOrder ++ [activeId]
    | none => toOrder ++ [activeId]
  let base : TaskObj := (alookup b.tasks activeId).getD {}
  let nextTasks :=
    aset b.tasks activeId { base with columnId := toColId, updatedAt := some now }
  let nextOrder :=
    aset (aset b.order (keyOf fromColId) fromOrder) (keyOf toColId) toOrder'
  { b with tasks := nextTasks, order := nextOrder, ts := now }

/-- taskdragmaster `handleDragEnd(ev)` (App.jsx lines 145-173), for the
`over ≠ null` case.  Note: the destination column is `over.id` only when it is
an order key; a task-id drop target falls back to the dragged task's own
column. -/
def d_handleDragEnd (b : Board) (activeId overId : String)
    (now : String) : Board :=
  let fromColId : Option String := (alookup b.tasks activeId).bind (·.columnId)
  let toColId : Option String :=
    if hasKey b.order overId then some overId else fromColId
  let fromOrder0 := agetD b.order (keyOf fromColId) []
  let fromIdx := jsIndexOf fromOrder0 activeId
  let fromOrder :=
    if fromIdx ≠ -1 then spliceRemove1 fromOrder0 fromIdx else fromOrder0
  let toOrder := agetD b.order (keyOf toColId) []
  let overIndex := jsIndexOf toOrder overId
  let toOrder' :=
    if overIndex = -1 then toOrder ++ [activeId]
    else spliceInsert toOrder overIndex activeId
  let base : TaskObj := (alookup b.tasks activeId).getD {}
  let nextTasks :=
    aset b.tasks activeId { base with columnId := toColId, updatedAt := some now }
  let nextOrder :=
    aset (aset b.order (keyOf fromColId) fromOrder) (keyOf toColId) toOrder'
  { b with tasks := nextTasks, order := nextOrder, ts := now }

/-- taskdragmaster `deleteTask(id)` (App.jsx lines 187-194): same as the
taskmaster delete but without a confirm dialog. -/
def d_deleteTask (b : Board) (id : String) (now : String) : Board :=
  match alookup b.tasks id with
  | none => b
  | some t =>
      let colId := keyOf t.columnId
      let nextOrder := (agetD b.order colId []).filter (fun x => x ≠ id)
      { b with tasks := aerase b.tasks id,
               order := aset b.order colId nextOrder, ts := now }

/-- Fields an (optional-field) argument to `newTask(partial)` may carry;
an absent field is `undefined`. -/
structure NewTaskInput where
  title : Option String := none
  description : Option String := none
  priority : Option String := none
  due : Option String := none
  columnId : Option String := none
deriving DecidableEq, Repr

/-- `newTask(partial)` as defined identically in taskmaster (lines 62-74) and
taskdragmaster (lines 58-70): every missing or empty field is defaulted, in
particular an empty title becomes "New task" and the column defaults to
"todo" (the first default column). -/
def newTask (p : NewTaskInput) (freshId now : String) : TaskObj :=
  { id := some freshId,
    title := some (jsOrS p.title "New task"),
    description := some (jsOrS p.description ""),
    priority := some (jsOrS p.priority "medium"),
    due := some (jsOrS p.due ""),
    createdAt := some now, updatedAt := some now,
    columnId := some (jsOrS p.columnId "todo") }

/-- taskdragmaster `addTask()` (App.jsx lines 175-185): create `newTask({})`
and prepend its id to its column's order list. -/
def d_addTask (b : Board) (freshId now : String) : Board :=
  let t := newTask {} freshId now
  let colId := keyOf t.columnId
  { b with tasks := aset b.tasks freshId t,
           order := aset b.order colId (freshId :: agetD b.order colId []),
           ts := now }

/-- part_000 `handleDragEnd(e)` (lines 253-287), for the `over ≠ null` case.
The source column is found by scanning the order lists; tasks carry their
column in the `status` field. -/
def u_handleDragEnd (b : Board) (activeId overId : String)
    (now : String) : Board :=
  let sourceCol : Option String :=
    (b.order.map (fun p => p.1)).find?
      (fun col => (agetD b.order col []).contains activeId)
  let destCol : Option String :=
    if hasKey b.order overId then some overId
    else if hasKey b.tasks overId then (alookup b.tasks overId).bind (·.status)
    else sourceCol
  let sourceOrder :=
    (agetD b.order (keyOf sourceCol) []).filter (fun x => x ≠ activeId)
  let destOrder0 := agetD b.order (keyOf destCol) []
  let destOrder :=
    if sourceCol = destCol ∧ hasKey b.tasks overId then
      let oldIndex := jsIndexOf (agetD b.order (keyOf sourceCol) []) activeId
      let newIndex := jsIndexOf destOrder0 overId
      spliceInsert (spliceRemove1 destOrder0 oldIndex) newIndex activeId
    else if hasKey b.tasks overId then
      let idx := jsIndexOf destOrder0 overId
      if idx = -1 then destOrder0 ++ [activeId]
      else spliceInsert destOrder0 idx activeId
    else destOrder0 ++ [activeId]
  let base : TaskObj := (alookup b.tasks activeId).getD {}
  let updatedTasks :=
    aset b.tasks activeId { base with status := destCol, updatedAt := some now }
  let nextOrder :=
    aset (aset b.order (keyOf sourceCol) sourceOrder) (keyOf destCol) destOrder
  { b with tasks := updatedTasks, order := nextOrder, ts := now }

/-- part_000 `deleteTask(id)` (lines 244-251): after the confirm dialog,
removes the task and filters the id out of EVERY column's order list. -/
def u_deleteTask (b : Board) (id : String) (confirmDelete : Bool)
    (now : String) : Board :=
  if confirmDelete then
    match alookup b.tasks id with
    | none => b
    | some _ =>
        { b with tasks := aerase b.tasks id,
                 order := b.order.map (fun p => (p.1, p.2.filter (fun x => x ≠ id))),
                 ts := now }
  else b

/-- Fields the part_000 modal always supplies to `saveTask`. -/
structure TaskInputU where
  id : Option String
  title : String
  description : String
  priority : String
  due : String
  tag : String
  status : String
deriving DecidableEq, Repr

/-- part_000 `saveTask(taskPartial)` (lines 233-242). -/
def u_saveTask (b : Board) (p : TaskInputU) (freshId now : String) : Board :=
  let isEdit : Bool :=
    match p.id with
    | none => false
    | some s => if s = "" then false else hasKey b.tasks s
  let id : String :=
    match p.id with
    | none => freshId
    | some s => if s = "" then freshId else s
  let base : TaskObj := (alookup b.tasks id).getD {}
  let task : TaskObj :=
    { base with
      id := some id, title := some p.title, description := some p.description,
      priority := some p.priority, due := some p.due, tag := some p.tag,
      updatedAt := some now,
      createdAt := some (jsOrS base.createdAt now),
      status := some (jsOrS (some p.status) (jsOrS base.status "todo")) }
  let tasks' := aset b.tasks id task
  let order' :=
    if isEdit then b.order
    else aset b.order "todo" (id :: agetD b.order "todo" [])
  { b with tasks := tasks', order := order', ts := now }

/-! Concrete boards used in the claim-level theorems below. -/

/-- A taskmaster/taskdragmaster-style task stored in column `col`. -/
def exTaskM (i col : String) : TaskObj :=
  { id := some i, title := some i, columnId := some col,
    createdAt := some "t0", updatedAt := some "t0" }

/-- A part_000-style task stored in column `col` (the `status` field). -/
def exTaskU (i col : String) : TaskObj :=
  { id := some i, title := some i, status := some col,
    createdAt := some "t0", updatedAt := some "t0" }

def exC1BoardM : Board :=
  { id := "default", name := "My Board", columns := DEFAULT_COLUMNS,
    tasks := [("A", exTaskM "A" "todo")],
    order := [("todo", ["A"]), ("inprogress", []), ("done", [])], ts := "t0" }

def exC1BoardU : Board :=
  { id := "main", name := "Board", columns := DEFAULT_COLUMNS,
    tasks := [("A", exTaskU "A" "todo")],
    order := [("todo", ["A"]), ("inprogress", []), ("done", [])], ts := "t0" }

def exC2BoardM : Board :=
  { id := "default", name := "My Board", columns := [⟨"todo", "To do"⟩],
    tasks := [("A", exTaskM "A" "todo"), ("B", exTaskM "B" "todo"),
              ("C", exTaskM "C" "todo")],
    order := [("todo", ["A", "B", "C"])], ts := "t0" }

def exC2BoardU : Board :=
  { id := "main", name := "Board", columns := [⟨"todo", "To do"⟩],
    tasks := [("A", exTaskU "A" "todo"), ("B", exTaskU "B" "todo"),
              ("C", exTaskU "C" "todo")],
    order := [("todo", ["A", "B", "C"])], ts := "t0" }

def exC3BoardM : Board :=
  { id := "default", name := "My Board", columns := DEFAULT_COLUMNS,
    tasks := [("A", exTaskM "A" "todo"), ("B", exTaskM "B" "todo")],
    order := [("todo", ["A", "B"]), ("inprogress", []), ("done", [])], ts := "t0" }

def exC3BoardU : Board :=
  { id := "main", name := "Board", columns := DEFAULT_COLUMNS,
    tasks := [("A", exTaskU "A" "todo"), ("B", exTaskU "B" "todo")],
    order := [("todo", ["A", "B"]), ("inprogress", []), ("done", [])], ts := "t0" }

def exC4Board : Board :=
  { id := "default", name := "My Board", columns := DEFAULT_COLUMNS,
    tasks := [("A", exTaskM "A" "todo"), ("B", exTaskM "B" "done")],
    order := [("todo", ["A"]), ("done", ["B"])], ts := "t0" }

def exC4BoardU : Board :=
  { id := "main", name := "Board", columns := DEFAULT_COLUMNS,
    tasks := [("A", exTaskU "A" "todo"), ("B", exTaskU "B" "done")],
    order := [("todo", ["A"]), ("done", ["B"])], ts := "t0" }

/-- A drifted board: task A records column "todo" but its id sits in
`order.done`. -/
def exC5Board : Board :=
  { id := "default", name := "My Board", columns := DEFAULT_COLUMNS,
    tasks := [("A", exTaskM "A" "todo")],
    order := [("todo", []), ("done", ["A"])], ts := "t0" }

def exC6Board : Board :=
  { id := "default", name := "My Board", columns := DEFAULT_COLUMNS,
    tasks := [("B", exTaskM "B" "done")],
    order := [("todo", []), ("done", ["B"])], ts := "t0" }

def exC6BoardU : Board :=
  { id := "main", name := "Board", columns := DEFAULT_COLUMNS,
    tasks := [("B", exTaskU "B" "done")],
    order := [("todo", []), ("done", ["B"])], ts := "t0" }

/-- A board with no tasks and the default empty order lists. -/
def exPlainBoard : Board :=
  { id := "default", name := "My Board", columns := DEFAULT_COLUMNS,
    tasks := [], order := [("todo", []), ("inprogress", []), ("done", [])],
    ts := "t0" }

/-- The modal payload of an update request naming the id "X". -/
def exInputX : TaskInputM :=
  { id := some "X", title := "T", description := "", priority := "medium",
    due := "", columnId := "todo" }

/-- The part_000 modal payload of an update request naming the id "X". -/
def exInputXU : TaskInputU :=
  { id := some "X", title := "T", description := "", priority := "medium",
    due := "", tag := "", status := "todo" }

def exC10Board : Board :=
  { id := "default", name := "My Board", columns := DEFAULT_COLUMNS,
    tasks := [("A", exTaskM "A" "todo"), ("B", exTaskM "B" "todo")],
    order := [("todo", ["A", "B"]), ("done", [])], ts := "t0" }

def exC10BoardU : Board :=
  { id := "main", name := "Board", columns := DEFAULT_COLUMNS,
    tasks := [("A", exTaskU "A" "todo"), ("B", exTaskU "B" "todo")],
    order := [("todo", ["A", "B"]), ("done", [])], ts := "t0" }

/-! Library lemmas about the JavaScript-object and array embeddings. -/

theorem alookup_append {α : Type} (m l : AList α) (k : String) :
    alookup (m ++ l) k =
      match alookup m k with
      | some v => some v
      | none => alookup l k := by
  induction m with
  | nil => simp [alookup]
  | cons p m ih => by_cases h : p.1 = k <;> simp [alookup, h, ih]

theorem alookup_eq_none_iff {α : Type} (m : AList α) (k : String) :
    alookup m k = none ↔ ∀ p ∈ m, p.1 ≠ k := by
  induction m with
  | nil => simp [alookup]
  | cons p m ih => by_cases h : p.1 = k <;> simp [alookup, h, ih]

theorem hasKey_eq_false_iff {α : Type} (m : AList α) (k : String) :
    hasKey m k = false ↔ alookup m k = none := by
  cases h : alookup m k <;> simp [hasKey, h]

theorem alookup_mem {α : Type} {m : AList α} {k : String} {v : α}
    (h : alookup m k = some v) : (k, v) ∈ m := by
  induction m with
  | nil => simp [alookup] at h
  | cons p m ih =>
      by_cases hp : p.1 = k
      · simp only [alookup, hp, if_pos] at h
        have : p = (k, v) := by
          obtain ⟨p1, p2⟩ := p
          simp_all
        rw [← this]
        exact List.mem_cons_self p m
      · simp only [alookup, hp, if_neg, ite_false] at h
        exact List.mem_cons_of_mem p (ih h)

theorem mem_keys_of_alookup {α : Type} {m : AList α} {k : String} {v : α}
    (h : alookup m k = some v) : k ∈ m.map (fun p => p.1) := by
  exact List.mem_map_of_mem (fun p => p.1) (alookup_mem h)

theorem alookup_isSome_of_mem_keys {α : Type} {m : AList α} {k : String}
    (h : k ∈ m.map (fun p => p.1)) : (alookup m k).isSome := by
  induction m with
  | nil => simp at h
  | cons p m ih =>
      by_cases hp : p.1 = k
      · simp [alookup, hp]
      · simp only [List.map_cons, List.mem_cons] at h
        rcases h with h | h
        · exact absurd h.symm hp
        · simp [alookup, hp]
          exact ih h

theorem alookup_map_set {α : Type} (m : AList α) (k : String) (v : α)
    (h : (alookup m k).isSome) :
    alookup (m.map (fun p => if p.1 = k then (k, v) else p)) k = some v := by
  induction m with
  | nil => simp [alookup] at h
  | cons p m ih =>
      by_cases hp : p.1 = k
      · simp [alookup, hp]
      · simp only [alookup, hp, ite_false, if_neg] at h
        simp [alookup, hp]
        exact ih h

theorem alookup_map_set_ne {α : Type} (m : AList α) (k k' : String) (v : α)
    (hne : k' ≠ k) :
    alookup (m.map (fun p => if p.1 = k then (k, v) else p)) k' = alookup m k' := by
  induction m with
  | nil => simp
  | cons p m ih =>
      by_cases hp : p.1 = k
      · have h1 : ¬ k = k' := fun h => hne h.symm
        have h2 : ¬ p.1 = k' := hp ▸ h1
        simp [alookup, hp, h1, h2, ih]
      · by_cases hp' : p.1 = k' <;> simp [alookup, hp, hp', ih, hne]

theorem alookup_aset_self {α : Type} (m : AList α) (k : String) (v : α) :
    alookup (aset m k v) k = some v := by
  unfold aset
  by_cases h : hasKey m k
  · simp only [h, if_pos]
    exact alookup_map_set m k v (by simpa [hasKey] using h)
  · simp only [h, if_neg, Bool.false_eq_true, ite_false]
    have h0 : alookup m k = none := by
      cases hl : alookup m k
      · rfl
      · simp [hasKey, hl] at h
    rw [alookup_append, h0]
    simp [alookup]

theorem alookup_aset_ne {α : Type} (m : AList α) (k k' : String) (v : α)
    (hne : k' ≠ k) : alookup (aset m k v) k' = alookup m k' := by
  unfold aset
  by_cases h : hasKey m k
  · simp only [h, if_pos]
    exact alookup_map_set_ne m k k' v hne
  · simp only [h, if_neg, Bool.false_eq_true, ite_false]
    rw [alookup_append]
    cases hl : alookup m k'
    · have h1 : ¬ k = k' := fun hh => hne hh.symm
      simp [alookup, h1]
    · rfl

theorem agetD_aset_self {α : Type} (m : AList α) (k : String) (v d : α) :
    agetD (aset m k v) k d = v := by
  simp [agetD, alookup_aset_self]

theorem agetD_aset_ne {α : Type} (m : AList α) (k k' : String) (v d : α)
    (hne : k' ≠ k) : agetD (aset m k v) k' d = agetD m k' d := by
  simp [agetD, alookup_aset_ne m k k' v hne]

theorem alookup_aerase_self {α : Type} (m : AList α) (k : String) :
    alookup (aerase m k) k = none := by
  induction m with
  | nil => rfl
  | cons p m ih =>
      unfold aerase at ih ⊢
      rw [List.filter_cons]
      by_cases hp : p.1 = k
      · rw [if_neg (by simp [hp])]
        exact ih
      · rw [if_pos (by simp [hp])]
        rw [alookup, if_neg hp]
        exact ih

theorem alookup_aerase_ne {α : Type} (m : AList α) (k k' : String)
    (hne : k' ≠ k) : alookup (aerase m k) k' = alookup m k' := by
  induction m with
  | nil => rfl
  | cons p m ih =>
      unfold aerase at ih ⊢
      rw [List.filter_cons]
      by_cases hp : p.1 = k
      · have h1 : ¬ k = k' := fun h => hne h.symm
        have h2 : ¬ p.1 = k' := hp ▸ h1
        rw [if_neg (by simp [hp])]
        rw [ih, alookup, if_neg h2]
      · rw [if_pos (by simp [hp])]
        by_cases hp' : p.1 = k'
        · rw [alookup, if_pos hp', alookup, if_pos hp']
        · rw [alookup, if_neg hp', alookup, if_neg hp', ih]

theorem alookup_unique {α : Type} {m : AList α} {k : String} {v : α}
    (hnd : (m.map (fun p => p.1)).Nodup) (h : alookup m k = some v) :
    ∀ p ∈ m, p.1 = k → p.2 = v := by
  induction m with
  | nil => simp
  | cons q m ih =>
      simp only [List.map_cons, List.nodup_cons] at hnd
      intro p hp hpk
      rcases List.mem_cons.mp hp with rfl | hpm
      · rw [alookup, if_pos hpk] at h
        exact Option.some_inj.mp h
      · by_cases hq : q.1 = k
        · exfalso
          apply hnd.1
          rw [hq]
          have hmem := List.mem_map_of_mem (fun p => p.1) hpm
          simpa [hpk] using hmem
        · rw [alookup, if_neg hq] at h
          exact ih hnd.2 h p hpm hpk

theorem aset_eq_self {α : Type} (m : AList α) (k : String) (v : α)
    (hk : hasKey m k = true) (h : ∀ p ∈ m, p.1 = k → p.2 = v) :
    aset m k v = m := by
  unfold aset
  rw [hk]
  simp only [ite_true]
  have : m.map (fun p => if p.1 = k then (k, v) else p) = m.map id := by
    apply List.map_congr_left
    intro p hp
    by_cases hpk : p.1 = k
    · have hv := h p hp hpk
      obtain ⟨p1, p2⟩ := p
      simp_all
    · simp [hpk]
  simp [this]

theorem aset_of_hasKey {α : Type} (m : AList α) (k : String) (v : α)
    (h : hasKey m k = true) :
    aset m k v = m.map (fun p => if p.1 = k then (k, v) else p) := by
  unfold aset
  rw [h]
  simp

theorem aset_of_not_hasKey {α : Type} (m : AList α) (k : String) (v : α)
    (h : hasKey m k = false) : aset m k v = m ++ [(k, v)] := by
  unfold aset
  rw [h]
  simp

theorem aset_aset_same {α : Type} (m : AList α) (k : String) (v w : α) :
    aset (aset m k v) k w = aset m k w := by
  have h2 : hasKey (aset m k v) k = true := by
    simp [hasKey, alookup_aset_self]
  rw [aset_of_hasKey (aset m k v) k w h2]
  by_cases h : hasKey m k = true
  · rw [aset_of_hasKey m k v h, aset_of_hasKey m k w h, List.map_map]
    apply List.map_congr_left
    intro p _
    by_cases hpk : p.1 = k <;> simp [hpk, Function.comp]
  · have hf : hasKey m k = false := by
      cases hh : hasKey m k
      · rfl
      · exact absurd hh h
    rw [aset_of_not_hasKey m k v hf, aset_of_not_hasKey m k w hf,
      List.map_append]
    have h0 : alookup m k = none := (hasKey_eq_false_iff m k).mp hf
    have hm : m.map (fun p => if p.1 = k then (k, w) else p) = m.map id := by
      apply List.map_congr_left
      intro p hp
      have : p.1 ≠ k := (alookup_eq_none_iff m k).mp h0 p hp
      simp [this]
    rw [hm]
    simp

theorem mem_aset {α : Type} (m : AList α) (k : String) (v : α) (p : String × α)
    (hp : p ∈ aset m k v) : (p.1 = k ∧ p.2 = v) ∨ (p ∈ m ∧ p.1 ≠ k) := by
  unfold aset at hp
  by_cases h : hasKey m k
  · simp only [h, if_pos] at hp
    obtain ⟨q, hq, hfq⟩ := List.mem_map.mp hp
    by_cases hqk : q.1 = k
    · left
      rw [← hfq]
      simp [hqk]
    · right
      rw [← hfq]
      simp only [hqk, if_neg, ite_false]
      exact ⟨hq, hqk⟩
  · simp only [h, if_neg, Bool.false_eq_true, ite_false] at hp
    rcases List.mem_append.mp hp with hm | hs
    · right
      refine ⟨hm, ?_⟩
      have hf : hasKey m k = false := by
        cases hh : hasKey m k
        · rfl
        · exact absurd hh h
      exact (alookup_eq_none_iff m k).mp ((hasKey_eq_false_iff m k).mp hf) p hm
    · left
      simp only [List.mem_singleton] at hs
      rw [hs]
      exact ⟨rfl, rfl⟩

theorem alookup_map_value {α β : Type} (m : AList α) (f : α → β) (k : String) :
    alookup (m.map (fun p => (p.1, f p.2))) k = (alookup m k).map f := by
  induction m with
  | nil => simp [alookup]
  | cons p m ih => by_cases hp : p.1 = k <;> simp [alookup, hp, ih]

theorem find_eq_of_unique_true (keys : List String) (pred : String → Bool)
    (s : String) (hs : s ∈ keys) (hps : pred s = true)
    (hothers : ∀ k ∈ keys, pred k = true → k = s) :
    keys.find? pred = some s := by
  induction keys with
  | nil => cases hs
  | cons a rest ih =>
      cases hpa : pred a
      · have hsr : s ∈ rest := by
          rcases List.mem_cons.mp hs with rfl | h
          · rw [hps] at hpa; cases hpa
          · exact h
        simp only [List.find?, hpa]
        exact ih hsr (fun k hk => hothers k (List.mem_cons_of_mem a hk))
      · have : a = s := hothers a (List.mem_cons_self a rest) hpa
        simp [List.find?, hpa, this, hps]

theorem find_sourceCol (m : AList (List String)) (x s : String)
    (L : List String) (hL : alookup m s = some L) (hmem : x ∈ L)
    (honly : ∀ p ∈ m, x ∈ p.2 → p.1 = s) :
    (m.map (fun p => p.1)).find?
      (fun col => (agetD m col []).contains x) = some s := by
  apply find_eq_of_unique_true
  · exact mem_keys_of_alookup hL
  · simp only [agetD, hL, Option.getD_some]
    exact List.elem_iff.mpr hmem
  · intro k hk hp
    obtain ⟨v, hv⟩ := Option.isSome_iff_exists.mp (alookup_isSome_of_mem_keys hk)
    have hxv : x ∈ v := by
      rw [agetD, hv, Option.getD_some] at hp
      exact List.elem_iff.mp hp
    exact honly (k, v) (alookup_mem hv) hxv

theorem jsIndexOf_nonneg_of_mem {l : List String} {x : String} (h : x ∈ l) :
    0 ≤ jsIndexOf l x := by
  induction l with
  | nil => cases h
  | cons a tl ih =>
      by_cases hax : a = x
      · simp [jsIndexOf, hax]
      · have hm : x ∈ tl := by
          rcases List.mem_cons.mp h with rfl | hm
          · exact absurd rfl hax
          · exact hm
        have h0 := ih hm
        have hne : jsIndexOf tl x ≠ -1 := by omega
        simp only [jsIndexOf, hax, if_neg, ite_false, hne]
        omega

theorem jsIndexOf_cons_of_ne {a x : String} {tl : List String}
    (hax : a ≠ x) (h : x ∈ tl) :
    jsIndexOf (a :: tl) x = jsIndexOf tl x + 1 := by
  have h0 := jsIndexOf_nonneg_of_mem h
  have hne : jsIndexOf tl x ≠ -1 := by omega
  simp [jsIndexOf, hax, hne]

theorem spliceRemove1_cons (a : String) (tl : List String) (r : Int)
    (hr : 0 ≤ r) :
    spliceRemove1 (a :: tl) (r + 1) = a :: spliceRemove1 tl r := by
  unfold spliceRemove1 jsStart
  have h1 : ¬ (r + 1 < 0) := by omega
  have h2 : ¬ (r < 0) := by omega
  simp only [h1, h2, ite_false, List.length_cons]
  have h3 : (r + 1).toNat = r.toNat + 1 := by omega
  rw [h3]
  have h4 : min (r.toNat + 1) (tl.length + 1) = min r.toNat tl.length + 1 := by
    omega
  rw [h4]
  simp [List.take_succ_cons, List.drop_succ_cons]

theorem spliceInsert_cons (a x : String) (tl : List String) (r : Int)
    (hr : 0 ≤ r) :
    spliceInsert (a :: tl) (r + 1) x = a :: spliceInsert tl r x := by
  unfold spliceInsert jsStart
  have h1 : ¬ (r + 1 < 0) := by omega
  have h2 : ¬ (r < 0) := by omega
  simp only [h1, h2, ite_false, List.length_cons]
  have h3 : (r + 1).toNat = r.toNat + 1 := by omega
  rw [h3]
  have h4 : min (r.toNat + 1) (tl.length + 1) = min r.toNat tl.length + 1 := by
    omega
  rw [h4]
  simp [List.take_succ_cons, List.drop_succ_cons]

theorem splice_cancel (l : List String) (x : String) (h : x ∈ l) :
    spliceInsert (spliceRemove1 l (jsIndexOf l x)) (jsIndexOf l x) x = l := by
  induction l with
  | nil => cases h
  | cons a tl ih =>
      by_cases hax : a = x
      · subst hax
        simp [jsIndexOf, spliceRemove1, spliceInsert, jsStart]
      · have hm : x ∈ tl := by
          rcases List.mem_cons.mp h with rfl | hm
          · exact absurd rfl hax
          · exact hm
        have h0 := jsIndexOf_nonneg_of_mem hm
        rw [jsIndexOf_cons_of_ne hax hm, spliceRemove1_cons a tl _ h0,
          spliceInsert_cons a x _ _ h0, ih hm]

theorem mem_spliceInsert_self (l : List String) (i : Int) (x : String) :
    x ∈ spliceInsert l i x := by
  unfold spliceInsert
  exact List.mem_append_right _ (List.mem_cons_self x _)

theorem not_mem_filter_ne_self (l : List String) (x : String) :
    x ∉ l.filter (fun y => y ≠ x) := by
  intro h
  have := List.mem_filter.mp h
  simp at this

/-! Claim-level theorems. -/

/-- C1: the claimed data-model invariant (each task id in `tasks` appears
exactly once across all order lists, in the list of its recorded column) is
NOT preserved by the drag-reorder entry point.  On a board holding the single
task A in column "todo", dropping A onto its own column container ("todo", a
resolvable target) leaves A twice in `order.todo`, in both the taskmaster
engine and the part_000 engine: the destination list is copied without
removing A before A is appended again. -/
theorem c1_invariant_broken_on_own_column_drop :
    (tm_handleDragEnd exC1BoardM "A" "todo" "t1").order
        = [("todo", ["A", "A"]), ("inprogress", []), ("done", [])]
      ∧ (u_handleDragEnd exC1BoardU "A" "todo" "t1").order
        = [("todo", ["A", "A"]), ("inprogress", []), ("done", [])] := by
  exact ⟨rfl, rfl⟩

/-- C2 counterexample: in the taskmaster engine, dragging C onto B in the
single-column board with todo = [A,B,C] yields todo = [A,C,B,C] (C is
inserted before B but never removed from the copied list), not the claimed
[A,C,B]. -/
theorem c2_taskmaster_duplicates :
    agetD (tm_handleDragEnd exC2BoardM "C" "B" "t1").order "todo" []
        = ["A", "C", "B", "C"]
      ∧ agetD (tm_handleDragEnd exC2BoardM "C" "B" "t1").order "todo" []
        ≠ ["A", "C", "B"] := by
  exact ⟨rfl, by decide⟩

/-- C2 (amended): the part_000 drag-reorder engine does satisfy the claim:
on the single-column board with todo = [A,B,C], dragging C onto B yields
todo = [A,C,B]. -/
theorem c2_part000_insert_before :
    agetD (u_handleDragEnd exC2BoardU "C" "B" "t1").order "todo" []
      = ["A", "C", "B"] := by
  rfl

/-- C3 counterexample: a self-drop is not detected and is not a no-op.  In
the taskmaster engine, dropping B onto itself in todo = [A,B] changes `order`
(to [A,B,B]); in the part_000 engine it changes `tasks` (the dragged task's
updatedAt is rewritten). -/
theorem c3_selfdrop_not_a_noop :
    (tm_handleDragEnd exC3BoardM "B" "B" "t1").order ≠ exC3BoardM.order
      ∧ (u_handleDragEnd exC3BoardU "B" "B" "t1").tasks ≠ exC3BoardU.tasks := by
  decide

/-- C4 counterexample: the taskdragmaster engine ignores task-id drop
targets.  Dropping A (in "todo") onto B (in "done") leaves A's columnId as
"todo" and never inserts A into order.done; instead A is duplicated inside
order.todo. -/
theorem c4_taskdragmaster_ignores_card_target :
    alookup (d_handleDragEnd exC4Board "A" "B" "t1").tasks "A"
        = some { exTaskM "A" "todo" with updatedAt := some "t1" }
      ∧ agetD (d_handleDragEnd exC4Board "A" "B" "t1").order "done" [] = ["B"]
      ∧ agetD (d_handleDragEnd exC4Board "A" "B" "t1").order "todo" []
        = ["A", "A"] := by
  decide

/-- C5 counterexample: the taskmaster delete does NOT scan all columns.  On a
drifted board where task A records column "todo" but sits in order.done,
deleting A removes it from `tasks` yet leaves "A" inside order.done. -/
theorem c5_taskmaster_misses_drifted_occurrence :
    alookup (tm_deleteTask exC5Board "A" true "t1").tasks "A" = none
      ∧ agetD (tm_deleteTask exC5Board "A" true "t1").order "done" []
        = ["A"] := by
  decide

/-- C6: a drag event whose active id is absent from `tasks` and from every
order list is NOT rejected.  Both the taskmaster and the part_000 engines
append the unknown id "ghost" to the target column's order list and create a
phantom `tasks` entry under "ghost" carrying only a column field and an
updatedAt (and both also add a spurious "undefined" order key). -/
theorem c6_unknown_active_corrupts_board :
    agetD (tm_handleDragEnd exC6Board "ghost" "todo" "t1").order "todo" []
        = ["ghost"]
      ∧ alookup (tm_handleDragEnd exC6Board "ghost" "todo" "t1").tasks "ghost"
        = some { columnId := some "todo", updatedAt := some "t1" }
      ∧ alookup (tm_handleDragEnd exC6Board "ghost" "todo" "t1").order
          "undefined" = some []
      ∧ agetD (u_handleDragEnd exC6BoardU "ghost" "todo" "t1").order "todo" []
        = ["ghost"]
      ∧ alookup (u_handleDragEnd exC6BoardU "ghost" "todo" "t1").tasks "ghost"
        = some { status := some "todo", updatedAt := some "t1" } := by
  decide

/-- C7 counterexample: an update request naming the absent id "X" does not
fail and does not leave the board unchanged: taskmaster's saveTask creates a
task under "X" and prepends "X" to order.todo (there is no NotFoundError in
the code). -/
theorem c7_absent_id_update_creates_instead :
    tm_saveTask exPlainBoard exInputX "fresh" "t1" ≠ exPlainBoard
      ∧ alookup (tm_saveTask exPlainBoard exInputX "fresh" "t1").tasks "X"
        = some { id := some "X", title := some "T", description := some "",
                 priority := some "medium", due := some "",
                 columnId := some "todo", createdAt := some "t1",
                 updatedAt := some "t1" }
      ∧ agetD (tm_saveTask exPlainBoard exInputX "fresh" "t1").order "todo" []
        = ["X"] := by
  decide

/-- C8 counterexample: a create with an empty title does not fail: `newTask`
silently replaces the empty title with "New task", and taskdragmaster's
addTask changes the board, storing the new task and prepending its id to
order.todo (there is no ValidationError in the code). -/
theorem c8_empty_title_creates_task_anyway :
    (newTask { title := some "" } "id1" "t1").title = some "New task"
      ∧ d_addTask exPlainBoard "id1" "t1" ≠ exPlainBoard
      ∧ alookup (d_addTask exPlainBoard "id1" "t1").tasks "id1"
        = some (newTask {} "id1" "t1")
      ∧ agetD (d_addTask exPlainBoard "id1" "t1").order "todo" []
        = ["id1"] := by
  decide

/-- C8 (amended): create performs no title validation.  `newTask` defaults a
missing or empty title to "New task", and taskdragmaster's addTask always
stores the new task and prepends its fresh id to order.todo. -/
theorem c8_create_defaults_empty_title :
    (∀ (p : NewTaskInput) (freshId now : String),
      p.title = none ∨ p.title = some "" →
      (newTask p freshId now).title = some "New task")
    ∧ (∀ (b : Board) (freshId now : String),
        alookup (d_addTask b freshId now).tasks freshId
            = some (newTask {} freshId now)
          ∧ agetD (d_addTask b freshId now).order "todo" []
            = freshId :: agetD b.order "todo" []) := by
  constructor
  · intro p freshId now h
    rcases h with h | h <;> simp [newTask, jsOrS, h]
  · intro b freshId now
    constructor
    · simp [d_addTask, newTask, jsOrS, keyOf, alookup_aset_self]
    · simp [d_addTask, newTask, jsOrS, keyOf, agetD_aset_self]

/-- C8 witness. -/
theorem c8_create_defaults_empty_title_witness :
    (newTask { title := some "" } "w1" "t2").title = some "New task"
      ∧ alookup (d_addTask exPlainBoard "w1" "t2").tasks "w1"
        = some (newTask {} "w1" "t2")
      ∧ agetD (d_addTask exPlainBoard "w1" "t2").order "todo" []
        = "w1" :: agetD exPlainBoard.order "todo" [] :=
  ⟨c8_create_defaults_empty_title.1 { title := some "" } "w1" "t2" (Or.inr rfl),
   (c8_create_defaults_empty_title.2 exPlainBoard "w1" "t2").1,
   (c8_create_defaults_empty_title.2 exPlainBoard "w1" "t2").2⟩

/-- C7 (amended): an update request naming an id absent from `tasks` does
not fail — there is no NotFoundError; saveTask treats it as a create: in both
the taskmaster and the part_000 prototypes the merged task (with fresh
createdAt/updatedAt) is stored under that id and the id is prepended to
order.todo. -/
theorem c7_saveTask_upserts_absent_id :
    (∀ (b : Board) (p : TaskInputM) (freshId now i : String),
      p.id = some i → i ≠ "" → hasKey b.tasks i = false →
      alookup (tm_saveTask b p freshId now).tasks i
          = some { id := some i, title := some p.title,
                   description := some p.description,
                   priority := some p.priority, due := some p.due,
                   columnId := some p.columnId,
                   createdAt := some now, updatedAt := some now }
        ∧ agetD (tm_saveTask b p freshId now).order "todo" []
          = i :: agetD b.order "todo" [])
    ∧ (∀ (b : Board) (p : TaskInputU) (freshId now i : String),
      p.id = some i → i ≠ "" → hasKey b.tasks i = false →
      alookup (u_saveTask b p freshId now).tasks i
          = some { id := some i, title := some p.title,
                   description := some p.description,
                   priority := some p.priority, due := some p.due,
                   tag := some p.tag,
                   createdAt := some now, updatedAt := some now,
                   status := some (jsOrS (some p.status) "todo") }
        ∧ agetD (u_saveTask b p freshId now).order "todo" []
          = i :: agetD b.order "todo" []) := by
  constructor
  · intro b p freshId now i hid hine hnk
    have hnone : alookup b.tasks i = none := (hasKey_eq_false_iff _ _).mp hnk
    unfold tm_saveTask
    rw [hid]
    simp [hine, hnk, hnone, jsOrS, alookup_aset_self, agetD_aset_self]
  · intro b p freshId now i hid hine hnk
    have hnone : alookup b.tasks i = none := (hasKey_eq_false_iff _ _).mp hnk
    unfold u_saveTask
    rw [hid]
    simp [hine, hnk, hnone, jsOrS, alookup_aset_self, agetD_aset_self]

/-- C7 witness. -/
theorem c7_saveTask_upserts_absent_id_witness :
    (alookup (tm_saveTask exPlainBoard exInputX "w" "t2").tasks "X"
        = some { id := some "X", title := some "T", description := some "",
                 priority := some "medium", due := some "",
                 columnId := some "todo", createdAt := some "t2",
                 updatedAt := some "t2" }
      ∧ agetD (tm_saveTask exPlainBoard exInputX "w" "t2").order "todo" []
        = "X" :: agetD exPlainBoard.order "todo" [])
      ∧ (alookup (u_saveTask exPlainBoard exInputXU "w" "t2").tasks "X"
          = some { id := some "X", title := some "T", description := some "",
                   priority := some "medium", due := some "", tag := some "",
                   createdAt := some "t2", updatedAt := some "t2",
                   status := some (jsOrS (some "todo") "todo") }
        ∧ agetD (u_saveTask exPlainBoard exInputXU "w" "t2").order "todo" []
          = "X" :: agetD exPlainBoard.order "todo" []) :=
  ⟨c7_saveTask_upserts_absent_id.1 exPlainBoard exInputX "w" "t2" "X" rfl
      (by decide) (by decide),
   c7_saveTask_upserts_absent_id.2 exPlainBoard exInputXU "w" "t2" "X" rfl
      (by decide) (by decide)⟩

/-- C5 (amended): part_000's delete removes the deleted id from EVERY
column's order list, as the claim states; the taskmaster (and taskdragmaster)
delete instead filters only the order list of the task's recorded column, so
it removes every occurrence only when the id does not sit in any other
column's list. -/
theorem c5_delete_occurrence_removal :
    (∀ (b : Board) (id now : String) (t : TaskObj),
      alookup b.tasks id = some t →
      alookup (u_deleteTask b id true now).tasks id = none
        ∧ ∀ p ∈ (u_deleteTask b id true now).order, id ∉ p.2)
    ∧ (∀ (b : Board) (id c now : String) (t : TaskObj),
      alookup b.tasks id = some t → t.columnId = some c →
      (∀ p ∈ b.order, p.1 ≠ c → id ∉ p.2) →
      alookup (tm_deleteTask b id true now).tasks id = none
        ∧ ∀ p ∈ (tm_deleteTask b id true now).order, id ∉ p.2) := by
  constructor
  · intro b id now t ht
    have e : u_deleteTask b id true now
        = { b with tasks := aerase b.tasks id,
                   order := b.order.map
                     (fun p => (p.1, p.2.filter (fun x => x ≠ id))),
                   ts := now } := by
      unfold u_deleteTask
      rw [ht]
      simp
    constructor
    · have et : (u_deleteTask b id true now).tasks = aerase b.tasks id := by
        rw [e]
      rw [et]
      exact alookup_aerase_self b.tasks id
    · intro p hp
      have eo : (u_deleteTask b id true now).order
          = b.order.map (fun p => (p.1, p.2.filter (fun x => x ≠ id))) := by
        rw [e]
      rw [eo] at hp
      obtain ⟨q, _, hfq⟩ := List.mem_map.mp hp
      rw [← hfq]
      exact not_mem_filter_ne_self q.2 id
  · intro b id c now t ht hc honly
    have e : tm_deleteTask b id true now
        = { b with tasks := aerase b.tasks id,
                   order := aset b.order c
                     ((agetD b.order c []).filter (fun x => x ≠ id)),
                   ts := now } := by
      unfold tm_deleteTask
      rw [ht]
      simp [keyOf, hc]
    constructor
    · have et : (tm_deleteTask b id true now).tasks = aerase b.tasks id := by
        rw [e]
      rw [et]
      exact alookup_aerase_self b.tasks id
    · intro p hp
      have eo : (tm_deleteTask b id true now).order
          = aset b.order c ((agetD b.order c []).filter (fun x => x ≠ id)) := by
        rw [e]
      rw [eo] at hp
      rcases mem_aset _ _ _ _ hp with ⟨_, h2⟩ | ⟨hm, hne⟩
      · rw [h2]
        exact not_mem_filter_ne_self _ id
      · exact honly p hm hne

/-- C5 witness. -/
theorem c5_delete_occurrence_removal_witness :
    (alookup (u_deleteTask exC5Board "A" true "t1").tasks "A" = none
        ∧ "A" ∉ agetD (u_deleteTask exC5Board "A" true "t1").order "done" [])
      ∧ (alookup (tm_deleteTask exC10Board "A" true "t1").tasks "A" = none
        ∧ "A" ∉ agetD (tm_deleteTask exC10Board "A" true "t1").order "todo" []) := by
  have h1 := c5_delete_occurrence_removal.1 exC5Board "A" "t1"
    (exTaskM "A" "todo") (by decide)
  have h2 := c5_delete_occurrence_removal.2 exC10Board "A" "todo" "t1"
    (exTaskM "A" "todo") (by decide) (by decide) (by decide)
  refine ⟨⟨h1.1, ?_⟩, ⟨h2.1, ?_⟩⟩
  · intro hmem
    exact h1.2 ("done", agetD (u_deleteTask exC5Board "A" true "t1").order
      "done" []) (by decide) hmem
  · intro hmem
    exact h2.2 ("todo", agetD (tm_deleteTask exC10Board "A" true "t1").order
      "todo" []) (by decide) hmem

/-- C10: the frame property of delete holds in all three prototypes: deleting
a present task id removes exactly that id from `tasks` (every other task's
record is looked up unchanged); in taskmaster/taskdragmaster the recorded
column's order list becomes its filtered version (only occurrences of the
deleted id removed, relative order preserved) and every other column's list
is untouched; in part_000 every column's list becomes its filtered version. -/
theorem c10_delete_frame :
    (∀ (b : Board) (id c now : String) (t : TaskObj),
      alookup b.tasks id = some t → t.columnId = some c →
      (∀ j, j ≠ id →
        alookup (tm_deleteTask b id true now).tasks j = alookup b.tasks j)
        ∧ alookup (tm_deleteTask b id true now).tasks id = none
        ∧ alookup (tm_deleteTask b id true now).order c
          = some ((agetD b.order c []).filter (fun x => x ≠ id))
        ∧ (∀ c', c' ≠ c →
            alookup (tm_deleteTask b id true now).order c'
              = alookup b.order c'))
    ∧ (∀ (b : Board) (id now : String) (t : TaskObj),
      alookup b.tasks id = some t →
      (∀ j, j ≠ id →
        alookup (u_deleteTask b id true now).tasks j = alookup b.tasks j)
        ∧ alookup (u_deleteTask b id true now).tasks id = none
        ∧ (∀ c l, alookup b.order c = some l →
            alookup (u_deleteTask b id true now).order c
              = some (l.filter (fun x => x ≠ id))))
    ∧ (∀ (b : Board) (id c now : String) (t : TaskObj),
      alookup b.tasks id = some t → t.columnId = some c →
      (∀ j, j ≠ id →
        alookup (d_deleteTask b id now).tasks j = alookup b.tasks j)
        ∧ alookup (d_deleteTask b id now).tasks id = none
        ∧ alookup (d_deleteTask b id now).order c
          = some ((agetD b.order c []).filter (fun x => x ≠ id))
        ∧ (∀ c', c' ≠ c →
            alookup (d_deleteTask b id now).order c' = alookup b.order c')) := by
  refine ⟨?_, ?_, ?_⟩
  · intro b id c now t ht hc
    have e : tm_deleteTask b id true now
        = { b with tasks := aerase b.tasks id,
                   order := aset b.order c
                     ((agetD b.order c []).filter (fun x => x ≠ id)),
                   ts := now } := by
      unfold tm_deleteTask
      rw [ht]
      simp [keyOf, hc]
    have et : (tm_deleteTask b id true now).tasks = aerase b.tasks id := by
      rw [e]
    have eo : (tm_deleteTask b id true now).order
        = aset b.order c ((agetD b.order c []).filter (fun x => x ≠ id)) := by
      rw [e]
    refine ⟨?_, ?_, ?_, ?_⟩
    · intro j hj
      rw [et]
      exact alookup_aerase_ne b.tasks id j hj
    · rw [et]
      exact alookup_aerase_self b.tasks id
    · rw [eo]
      exact alookup_aset_self b.order c _
    · intro c' hne
      rw [eo]
      exact alookup_aset_ne b.order c c' _ hne
  · intro b id now t ht
    have e : u_deleteTask b id true now
        = { b with tasks := aerase b.tasks id,
                   order := b.order.map
                     (fun p => (p.1, p.2.filter (fun x => x ≠ id))),
                   ts := now } := by
      unfold u_deleteTask
      rw [ht]
      simp
    have et : (u_deleteTask b id true now).tasks = aerase b.tasks id := by
      rw [e]
    have eo : (u_deleteTask b id true now).order
        = b.order.map (fun p => (p.1, p.2.filter (fun x => x ≠ id))) := by
      rw [e]
    refine ⟨?_, ?_, ?_⟩
    · intro j hj
      rw [et]
      exact alookup_aerase_ne b.tasks id j hj
    · rw [et]
      exact alookup_aerase_self b.tasks id
    · intro c l hcl
      rw [eo, alookup_map_value b.order (fun v => v.filter (fun x => x ≠ id)) c,
        hcl]
      rfl
  · intro b id c now t ht hc
    have e : d_deleteTask b id now
        = { b with tasks := aerase b.tasks id,
                   order := aset b.order c
                     ((agetD b.order c []).filter (fun x => x ≠ id)),
                   ts := now } := by
      unfold d_deleteTask
      rw [ht]
      simp [keyOf, hc]
    have et : (d_deleteTask b id now).tasks = aerase b.tasks id := by
      rw [e]
    have eo : (d_deleteTask b id now).order
        = aset b.order c ((agetD b.order c []).filter (fun x => x ≠ id)) := by
      rw [e]
    refine ⟨?_, ?_, ?_, ?_⟩
    · intro j hj
      rw [et]
      exact alookup_aerase_ne b.tasks id j hj
    · rw [et]
      exact alookup_aerase_self b.tasks id
    · rw [eo]
      exact alookup_aset_self b.order c _
    · intro c' hne
      rw [eo]
      exact alookup_aset_ne b.order c c' _ hne

/-- C10 witness. -/
theorem c10_delete_frame_witness :
    alookup (tm_deleteTask exC10Board "A" true "t1").tasks "B"
        = alookup exC10Board.tasks "B"
      ∧ alookup (tm_deleteTask exC10Board "A" true "t1").tasks "A" = none
      ∧ alookup (tm_deleteTask exC10Board "A" true "t1").order "todo"
        = some ((agetD exC10Board.order "todo" []).filter (fun x => x ≠ "A"))
      ∧ alookup (tm_deleteTask exC10Board "A" true "t1").order "done"
        = alookup exC10Board.order "done"
      ∧ alookup (u_deleteTask exC10BoardU "A" true "t1").tasks "B"
        = alookup exC10BoardU.tasks "B"
      ∧ alookup (u_deleteTask exC10BoardU "A" true "t1").order "todo"
        = some (["A", "B"].filter (fun x => x ≠ "A"))
      ∧ alookup (d_deleteTask exC10Board "A" "t1").tasks "A" = none := by
  have h1 := c10_delete_frame.1 exC10Board "A" "todo" "t1" (exTaskM "A" "todo")
    (by decide) (by decide)
  have h2 := c10_delete_frame.2.1 exC10BoardU "A" "t1" (exTaskU "A" "todo")
    (by decide)
  have h3 := c10_delete_frame.2.2 exC10Board "A" "todo" "t1"
    (exTaskM "A" "todo") (by decide) (by decide)
  exact ⟨h1.1 "B" (by decide), h1.2.1, h1.2.2.1, h1.2.2.2 "done" (by decide),
    h2.1 "B" (by decide), h2.2.2 "todo" ["A", "B"] (by decide), h3.2.1⟩

/-- C3 (amended): there is no self-drop short-circuit.  In the part_000
engine, dropping a properly-stored task onto itself leaves every order list
unchanged (the removal and re-insertion cancel), but the task's updatedAt is
rewritten to the current time (and the board ts is bumped); in the taskmaster
engine a self-drop corrupts the order list instead (see the counterexample). -/
theorem c3_part000_selfdrop_preserves_order
    (b : Board) (activeId s now : String) (t : TaskObj) (L : List String)
    (hnd : (b.order.map (fun p => p.1)).Nodup)
    (ht : alookup b.tasks activeId = some t)
    (hs : t.status = some s)
    (hnocol : hasKey b.order activeId = false)
    (hL : alookup b.order s = some L)
    (hmem : activeId ∈ L)
    (honly : ∀ p ∈ b.order, activeId ∈ p.2 → p.1 = s) :
    (u_handleDragEnd b activeId activeId now).order = b.order
      ∧ alookup (u_handleDragEnd b activeId activeId now).tasks activeId
        = some { t with status := some s, updatedAt := some now } := by
  have hfind := find_sourceCol b.order activeId s L hL hmem honly
  have hKt : hasKey b.tasks activeId = true := by simp [hasKey, ht]
  have e : u_handleDragEnd b activeId activeId now
      = { b with
          tasks := aset b.tasks activeId
            { t with status := some s, updatedAt := some now },
          order := aset
            (aset b.order s (L.filter (fun x => x ≠ activeId))) s
            (spliceInsert (spliceRemove1 L (jsIndexOf L activeId))
              (jsIndexOf L activeId) activeId),
          ts := now } := by
    unfold u_handleDragEnd
    rw [hfind, hnocol, hKt, ht]
    simp only [Option.some_bind]
    rw [hs]
    simp [keyOf, agetD, hL]
  have eo : (u_handleDragEnd b activeId activeId now).order
      = aset (aset b.order s (L.filter (fun x => x ≠ activeId))) s
          (spliceInsert (spliceRemove1 L (jsIndexOf L activeId))
            (jsIndexOf L activeId) activeId) := by
    rw [e]
  have et : (u_handleDragEnd b activeId activeId now).tasks
      = aset b.tasks activeId
          { t with status := some s, updatedAt := some now } := by
    rw [e]
  constructor
  · rw [eo, splice_cancel L activeId hmem, aset_aset_same]
    exact aset_eq_self b.order s L (by simp [hasKey, hL])
      (alookup_unique hnd hL)
  · rw [et]
    exact alookup_aset_self b.tasks activeId _

/-- C3 witness. -/
theorem c3_part000_selfdrop_preserves_order_witness :
    (u_handleDragEnd exC3BoardU "B" "B" "t1").order = exC3BoardU.order
      ∧ alookup (u_handleDragEnd exC3BoardU "B" "B" "t1").tasks "B"
        = some
          { exTaskU "B" "todo" with status := some "todo", updatedAt := some "t1" } :=
  c3_part000_selfdrop_preserves_order exC3BoardU "B" "todo" "t1"
    (exTaskU "B" "todo") ["A", "B"] (by decide) (by decide) (by decide)
    (by decide) (by decide) (by decide) (by decide)

/-- C4 (amended): in the taskmaster and part_000 engines, a drop target that
is a known task id (and not an order key) resolves the destination to that
task's recorded column: dropping a card onto a card of a different column
moves the dragged id into that column's order list, removes it from its old
column's list, and updates its column field.  The taskdragmaster engine does
NOT satisfy this (see the counterexample): it keeps the dragged task's own
column for task-id targets. -/
theorem c4_card_target_resolves_to_its_column :
    (∀ (b : Board) (activeId overId f c now : String) (ta tt : TaskObj),
      alookup b.tasks activeId = some ta → ta.columnId = some f →
      alookup b.tasks overId = some tt → tt.columnId = some c →
      tt.id = some overId → overId ≠ activeId → f ≠ c →
      hasKey b.order overId = false →
      alookup (tm_handleDragEnd b activeId overId now).tasks activeId
          = some { ta with columnId := some c, updatedAt := some now }
        ∧ activeId ∈ agetD (tm_handleDragEnd b activeId overId now).order c []
        ∧ activeId ∉ agetD (tm_handleDragEnd b activeId overId now).order f [])
    ∧ (∀ (b : Board) (activeId overId f c now : String) (ta tt : TaskObj)
        (L : List String),
      alookup b.tasks activeId = some ta →
      alookup b.tasks overId = some tt → tt.status = some c →
      alookup b.order f = some L → activeId ∈ L →
      (∀ p ∈ b.order, activeId ∈ p.2 → p.1 = f) →
      f ≠ c → hasKey b.order overId = false →
      alookup (u_handleDragEnd b activeId overId now).tasks activeId
          = some { ta with status := some c, updatedAt := some now }
        ∧ activeId ∈ agetD (u_handleDragEnd b activeId overId now).order c []
        ∧ activeId ∉ agetD (u_handleDragEnd b activeId overId now).order f []) := by
  constructor
  · intro b activeId overId f c now ta tt hta hf htt hc hid hne hfc hnoc
    have hKt : hasKey b.tasks overId = true := by simp [hasKey, htt]
    have hid2 : tt.id ≠ some activeId := by
      rw [hid]
      intro hcon
      exact hne (Option.some_inj.mp hcon)
    have e : tm_handleDragEnd b activeId overId now
        = { b with
            tasks := aset b.tasks activeId
              { ta with columnId := some c, updatedAt := some now },
            order := aset
              (aset b.order f
                ((agetD b.order f []).filter (fun x => x ≠ activeId))) c
              (if jsIndexOf (agetD b.order c []) overId = -1 then
                agetD b.order c [] ++ [activeId]
              else
                spliceInsert (agetD b.order c [])
                  (jsIndexOf (agetD b.order c []) overId) activeId),
            ts := now } := by
      unfold tm_handleDragEnd
      rw [hta, htt, hnoc, hKt]
      simp only [Option.some_bind]
      rw [hf, hc]
      simp [keyOf, agetD, hid2]
    have et : (tm_handleDragEnd b activeId overId now).tasks
        = aset b.tasks activeId
            { ta with columnId := some c, updatedAt := some now } := by
      rw [e]
    have eo : (tm_handleDragEnd b activeId overId now).order
        = aset
            (aset b.order f
              ((agetD b.order f []).filter (fun x => x ≠ activeId))) c
            (if jsIndexOf (agetD b.order c []) overId = -1 then
              agetD b.order c [] ++ [activeId]
            else
              spliceInsert (agetD b.order c [])
                (jsIndexOf (agetD b.order c []) overId) activeId) := by
      rw [e]
    refine ⟨?_, ?_, ?_⟩
    · rw [et]
      exact alookup_aset_self b.tasks activeId _
    · rw [eo, agetD_aset_self]
      by_cases hidx : jsIndexOf (agetD b.order c []) overId = -1
      · rw [if_pos hidx]
        exact List.mem_append_right _ (List.mem_cons_self activeId [])
      · rw [if_neg hidx]
        exact mem_spliceInsert_self _ _ _
    · rw [eo, agetD_aset_ne _ _ _ _ _ hfc, agetD_aset_self]
      exact not_mem_filter_ne_self _ _
  · intro b activeId overId f c now ta tt L hta htt hc hL hmem honly hfc hnoc
    have hfind := find_sourceCol b.order activeId f L hL hmem honly
    have hKt : hasKey b.tasks overId = true := by simp [hasKey, htt]
    have e : u_handleDragEnd b activeId overId now
        = { b with
            tasks := aset b.tasks activeId
              { ta with status := some c, updatedAt := some now },
            order := aset
              (aset b.order f (L.filter (fun x => x ≠ activeId))) c
              (if jsIndexOf (agetD b.order c []) overId = -1 then
                agetD b.order c [] ++ [activeId]
              else
                spliceInsert (agetD b.order c [])
                  (jsIndexOf (agetD b.order c []) overId) activeId),
            ts := now } := by
      unfold u_handleDragEnd
      rw [hfind, hnoc, hKt, htt, hta]
      simp only [Option.some_bind]
      rw [hc]
      simp [keyOf, agetD, hL, hfc]
    have et : (u_handleDragEnd b activeId overId now).tasks
        = aset b.tasks activeId
            { ta with status := some c, updatedAt := some now } := by
      rw [e]
    have eo : (u_handleDragEnd b activeId overId now).order
        = aset (aset b.order f (L.filter (fun x => x ≠ activeId))) c
            (if jsIndexOf (agetD b.order c []) overId = -1 then
              agetD b.order c [] ++ [activeId]
            else
              spliceInsert (agetD b.order c [])
                (jsIndexOf (agetD b.order c []) overId) activeId) := by
      rw [e]
    refine ⟨?_, ?_, ?_⟩
    · rw [et]
      exact alookup_aset_self b.tasks activeId _
    · rw [eo, agetD_aset_self]
      by_cases hidx : jsIndexOf (agetD b.order c []) overId = -1
      · rw [if_pos hidx]
        exact List.mem_append_right _ (List.mem_cons_self activeId [])
      · rw [if_neg hidx]
        exact mem_spliceInsert_self _ _ _
    · rw [eo, agetD_aset_ne _ _ _ _ _ hfc, agetD_aset_self]
      exact not_mem_filter_ne_self _ _

/-- C4 witness. -/
theorem c4_card_target_resolves_to_its_column_witness :
    alookup (tm_handleDragEnd exC4Board "A" "B" "t1").tasks "A"
        = some
          { exTaskM "A" "todo" with columnId := some "done", updatedAt := some "t1" }
      ∧ "A" ∈ agetD (tm_handleDragEnd exC4Board "A" "B" "t1").order "done" []
      ∧ "A" ∉ agetD (tm_handleDragEnd exC4Board "A" "B" "t1").order "todo" []
      ∧ alookup (u_handleDragEnd exC4BoardU "A" "B" "t1").tasks "A"
        = some
          { exTaskU "A" "todo" with status := some "done", updatedAt := some "t1" }
      ∧ "A" ∈ agetD (u_handleDragEnd exC4BoardU "A" "B" "t1").order "done" [] := by
  have h1 := c4_card_target_resolves_to_its_column.1 exC4Board "A" "B" "todo"
    "done" "t1" (exTaskM "A" "todo") (exTaskM "B" "done") (by decide)
    (by decide) (by decide) (by decide) (by decide) (by decide) (by decide)
    (by decide)
  have h2 := c4_card_target_resolves_to_its_column.2 exC4BoardU "A" "B" "todo"
    "done" "t1" (exTaskU "A" "todo") (exTaskU "B" "done") ["A"] (by decide)
    (by decide) (by decide) (by decide) (by decide) (by decide) (by decide)
    (by decide)
  exact ⟨h1.1, h1.2.1, h1.2.2, h2.1, h2.2.1⟩

/-- C9: when loading fails (storage key absent, or the payload cannot be
parsed), startup yields the freshly-initialized empty board: the default
three columns with no tasks and empty per-column order lists. -/
theorem c9_load_failure_yields_empty_board
    (raw : Option String) (parse : String → Option Board) (now : String)
    (h : raw = none ∨ ∃ s, raw = some s ∧ parse s = none) :
    startupBoard raw parse now = emptyBoard now
      ∧ (emptyBoard now).tasks = []
      ∧ (emptyBoard now).order = [("todo", []), ("inprogress", []), ("done", [])]
      ∧ (emptyBoard now).columns = DEFAULT_COLUMNS := by
  refine ⟨?_, rfl, rfl, rfl⟩
  rcases h with h | ⟨s, hs, hp⟩
  · subst h
    rfl
  · subst hs
    simp [startupBoard, loadStore, hp]

/-- C9 witness. -/
theorem c9_load_failure_yields_empty_board_witness :
    startupBoard none (fun _ => none) "t0" = emptyBoard "t0"
      ∧ (emptyBoard "t0").tasks = []
      ∧ (emptyBoard "t0").order
        = [("todo", []), ("inprogress", []), ("done", [])]
      ∧ (emptyBoard "t0").columns = DEFAULT_COLUMNS :=
  c9_load_failure_yields_empty_board none (fun _ => none) "t0" (Or.inl rfl)

end TaskBoard
